import Mathlib

/-!
Verification of the ohabenchmark core against its specification.

The Rust sources embedded here are `src/config.rs` (rate-sequence
generation), `src/runner.rs` (oha output parsing) and `src/analysis.rs`
(step classification and run summary).  Floating point values (`f64`)
are modelled as rationals; the arithmetic settled by the claims below is
exact in both representations at the inputs involved.  Machine integers
(`u32` rate fields, `u64` request counters) are modelled as naturals
with explicit reduction modulo `2^32` / `2^64` at the operations where
the Rust release build would wrap.
-/

namespace OhaBench

/-- Modulus of Rust `u32` arithmetic. -/
def u32Mod : Nat := 4294967296

/-- Modulus of Rust `u64` arithmetic. -/
def u64Mod : Nat := 18446744073709551616

/-! ### config.rs / cli.rs: ramping configuration and rate generation -/

/-- `RampingMode` from cli.rs: `Linear` (additive) or `Exponential`. -/
inductive RampingMode where
  | Linear
  | Exponential
deriving DecidableEq, Repr

/-- `RampingConfig` from config.rs. All integer fields are `u32`. -/
structure RampingConfig where
  mode : RampingMode
  start_rate : Nat
  max_rate : Nat
  step : Nat
  duration_seconds : Nat
  threads : Nat
  connections : Nat
deriving DecidableEq, Repr

/-- Loop of `RampingConfig::generate_rates` (config.rs lines 189-208),
indexed by fuel since the Rust `while` loop is not structurally
terminating (and indeed does not terminate on some inputs).  One unit of
fuel is one loop iteration; `none` means the fuel ran out before the
loop exited, `some rates` means the Rust loop terminates with `rates`.
`current + step` and `current * 2` are `u32` operations and wrap modulo
`2^32`. -/
def generateRatesAux (mode : RampingMode) (max_rate step : Nat) :
    Nat → Nat → List Nat → Option (List Nat)
  | 0, _, _ => none
  | fuel + 1, current, acc =>
    if current ≤ max_rate then
      match mode with
      | RampingMode.Linear =>
          generateRatesAux mode max_rate step fuel ((current + step) % u32Mod)
            (acc ++ [current])
      | RampingMode.Exponential =>
          let next := current * 2 % u32Mod
          if next = current then some (acc ++ [current])
          else generateRatesAux mode max_rate step fuel next (acc ++ [current])
    else some acc

/-- `RampingConfig::generate_rates` (config.rs lines 189-208), fuel-indexed. -/
def RampingConfig.generate_rates (c : RampingConfig) (fuel : Nat) : Option (List Nat) :=
  generateRatesAux c.mode c.max_rate c.step fuel c.start_rate []

/-! ### analysis.rs: data model of classifications and summaries -/

/-- `StepStatus` from analysis.rs. -/
inductive StepStatus where
  | Ok
  | Warning
  | Break
  | RateLimited
  | Blocked
  | Hung
  | Gone
deriving DecidableEq, Repr

/-- `BreakReason` from analysis.rs; the `f64` payloads are rationals here. -/
inductive BreakReason where
  | ErrorRate (rate : ℚ)
  | RateLimited (rate : ℚ)
  | Blocked (rate : ℚ)
  | P99Latency (ms : ℚ)
  | ThroughputDegradation (pct : ℚ)
  | Hung
  | NoResponses
  | None
deriving DecidableEq, Repr

/-- `BenchmarkResult` from runner.rs. -/
structure BenchmarkResult where
  target_rate : Nat
  actual_rate : ℚ
  avg_latency_ms : ℚ
  p50_latency_ms : ℚ
  p90_latency_ms : ℚ
  p99_latency_ms : ℚ
  max_latency_ms : ℚ
  total_requests : Nat
  errors : Nat
  error_rate : ℚ
  transfer_rate : String
  error_status_codes : List (Nat × Nat)
  hung : Bool
deriving DecidableEq, Repr

/-- `ThresholdConfig` from config.rs (`max_error_rate: f64`, `max_p99_ms: u32`). -/
structure ThresholdConfig where
  max_error_rate : ℚ
  max_p99_ms : Nat
deriving DecidableEq, Repr

/-- `AnalysisResult` from analysis.rs. -/
structure AnalysisResult where
  status : StepStatus
  break_reason : BreakReason
deriving DecidableEq, Repr

/-- `BenchmarkSummary` from analysis.rs. -/
structure BenchmarkSummary where
  breaking_point_rate : Option Nat
  break_reason : BreakReason
  last_stable_rate : Option Nat
  recommended_rate : Option Nat
  total_requests : Nat
  total_duration_seconds : Nat
  was_rate_limited : Bool
  was_blocked : Bool
  aggregated_error_codes : List (Nat × Nat)
deriving DecidableEq, Repr

/-! ### analysis.rs: step classification -/

/-- `get_dominant_error_status` (analysis.rs lines 166-169):
first entry of the count-descending `error_status_codes`. -/
def get_dominant_error_status (result : BenchmarkResult) : Option Nat :=
  result.error_status_codes.head?.map Prod.fst

/-- `analyze_result` (analysis.rs lines 172-248).  The nested `match` on
the dominant status code is rendered as an `if` chain on the same
scrutinee.  Note `actual_pct` for `target_rate = 0`: Rust divides by
zero in `f64` giving `inf`/`NaN`, for which `actual_pct < 70.0` is
false; the rational model gives `0 < 70` instead, but the Rust guard
`result.target_rate > 0` is false in exactly that case, so the branch
is not taken in either semantics. -/
def analyze_result (result : BenchmarkResult) (thresholds : ThresholdConfig) :
    AnalysisResult :=
  if result.hung then
    ⟨StepStatus.Hung, BreakReason.Hung⟩
  else if result.p99_latency_ms = 0 ∧ result.avg_latency_ms = 0 ∧ 0 < result.actual_rate then
    ⟨StepStatus.Gone, BreakReason.NoResponses⟩
  else if thresholds.max_error_rate < result.error_rate then
    if get_dominant_error_status result = some 429 then
      ⟨StepStatus.RateLimited, BreakReason.RateLimited result.error_rate⟩
    else if get_dominant_error_status result = some 403 then
      ⟨StepStatus.Blocked, BreakReason.Blocked result.error_rate⟩
    else
      ⟨StepStatus.Break, BreakReason.ErrorRate result.error_rate⟩
  else if (thresholds.max_p99_ms : ℚ) < result.p99_latency_ms then
    ⟨StepStatus.Break, BreakReason.P99Latency result.p99_latency_ms⟩
  else if result.actual_rate / (result.target_rate : ℚ) * 100 < 70 ∧ 0 < result.target_rate then
    ⟨StepStatus.Break,
      BreakReason.ThroughputDegradation (result.actual_rate / (result.target_rate : ℚ) * 100)⟩
  else if thresholds.max_error_rate * (1 / 2) < result.error_rate ∨
      (thresholds.max_p99_ms : ℚ) * (7 / 10) < result.p99_latency_ms then
    ⟨StepStatus.Warning, BreakReason.None⟩
  else
    ⟨StepStatus.Ok, BreakReason.None⟩

/-! ### analysis.rs: run summary -/

/-- The terminal-status test of `generate_summary` (analysis.rs lines 105-112). -/
def isTerminal (status : StepStatus) : Bool :=
  match status with
  | StepStatus.Break => true
  | StepStatus.RateLimited => true
  | StepStatus.Blocked => true
  | StepStatus.Hung => true
  | StepStatus.Gone => true
  | _ => false

/-- The five loop-carried variables of `generate_summary` once its scan
stops (analysis.rs lines 98-126): breaking point rate, break reason,
`was_rate_limited`, `was_blocked`, and `last_stable_rate` as left by the
scan. -/
structure SummaryScan where
  breaking_point_rate : Option Nat
  break_reason : BreakReason
  was_rate_limited : Bool
  was_blocked : Bool
  last_stable_rate : Option Nat
deriving DecidableEq, Repr

/-- The indexed `for` loop of `generate_summary` (analysis.rs lines
104-126).  `prev` carries `results[i-1].target_rate` (none at `i = 0`),
`lastOk` the running `last_stable_rate`.  On the first terminal
classification the loop breaks; an `Ok` step updates `lastOk`; any other
non-terminal step changes neither accumulator except `prev`. -/
def summaryLoop : List (BenchmarkResult × AnalysisResult) → Option Nat → Option Nat →
    SummaryScan
  | [], _, lastOk => ⟨none, BreakReason.None, false, false, lastOk⟩
  | (r, a) :: rest, prev, lastOk =>
    if isTerminal a.status then
      ⟨some r.target_rate, a.break_reason,
        decide (a.status = StepStatus.RateLimited),
        decide (a.status = StepStatus.Blocked),
        match prev with
        | some p => some p
        | none => lastOk⟩
    else if a.status = StepStatus.Ok then
      summaryLoop rest (some r.target_rate) (some r.target_rate)
    else
      summaryLoop rest (some r.target_rate) lastOk

/-- Stable insertion into a count-descending list: elements with a count
greater than or equal to the inserted count stay in front.  This is the
order produced by the stable `sort_by(|a, b| b.1.cmp(&a.1))` of Rust. -/
def insertByCountDesc (x : Nat × Nat) : List (Nat × Nat) → List (Nat × Nat)
  | [] => [x]
  | y :: ys => if x.2 ≤ y.2 then y :: insertByCountDesc x ys else x :: y :: ys

/-- Stable sort by count descending (`sort_by(|a, b| b.1.cmp(&a.1))`). -/
def sortByCountDesc (l : List (Nat × Nat)) : List (Nat × Nat) :=
  l.foldr insertByCountDesc []

/-- Update one `(code, count)` entry of an association list, used to model
the `HashMap` accumulation of `generate_summary` (analysis.rs lines
141-146).  The `HashMap` iteration order is unspecified in Rust; the
summary only exposes the count-descending sort of the entries. -/
def bumpCode (m : List (Nat × Nat)) (code count : Nat) : List (Nat × Nat) :=
  match m with
  | [] => [(code, count)]
  | (c, n) :: rest =>
    if c = code then (c, n + count) :: rest else (c, n) :: bumpCode rest code count

/-- Error-code aggregation of `generate_summary` (analysis.rs lines 141-149). -/
def aggregateCodes (results : List BenchmarkResult) : List (Nat × Nat) :=
  results.foldl (fun m r => r.error_status_codes.foldl (fun m p => bumpCode m p.1 p.2) m) []

/-- `generate_summary` (analysis.rs lines 93-162).  The parallel indexed
iteration over `results`/`analyses` is modelled by zipping the lists;
the Rust code indexes `results[i]` and expects the lists to be parallel.
`recommended_rate` is `(r as f64 * 0.8) as u32`; for every `u32` input
the `f64` computation truncates to exactly `⌊r * 8/10⌋`, which is the
form used here.  The `u64` running total of requests wraps modulo
`2^64`. -/
def generate_summary (results : List BenchmarkResult) (analyses : List AnalysisResult)
    (duration_per_step : Nat) : BenchmarkSummary :=
  let scan := summaryLoop (results.zip analyses) none none
  let last_stable_rate :=
    if scan.breaking_point_rate = none ∧ results ≠ [] then
      results.getLast?.map (fun r => r.target_rate)
    else scan.last_stable_rate
  let recommended_rate := last_stable_rate.map (fun r => (⌊(r : ℚ) * (8 / 10)⌋).toNat)
  let total_requests := (results.map (fun r => r.total_requests)).sum % u64Mod
  let total_duration_seconds := results.length * duration_per_step
  { breaking_point_rate := scan.breaking_point_rate
    break_reason := scan.break_reason
    last_stable_rate := last_stable_rate
    recommended_rate := recommended_rate
    total_requests := total_requests
    total_duration_seconds := total_duration_seconds
    was_rate_limited := scan.was_rate_limited
    was_blocked := scan.was_blocked
    aggregated_error_codes := sortByCountDesc (aggregateCodes results) }

/-! ### runner.rs: oha output parsing -/

/-- Time units accepted by `parse_time_to_ms` (runner.rs lines 340-349). -/
inductive TimeUnit where
  | us
  | ms
  | s
  | m
deriving DecidableEq, Repr

/-- `parse_time_to_ms` (runner.rs lines 340-349); the value is already
parsed to a rational. -/
def parse_time_to_ms (v : ℚ) (unit : TimeUnit) : ℚ :=
  match unit with
  | TimeUnit.us => v / 1000
  | TimeUnit.ms => v
  | TimeUnit.s => v * 1000
  | TimeUnit.m => v * 60000

/-- Results of the independent regex scans that `parse_oha_output`
(runner.rs lines 230-337) runs over the raw text.  Each field holds the
parsed captures of one regex: `none`/`[]` when the pattern does not
match.  `status_matches` lists the `(status_code, count)` capture pairs
of every match of the status-code pattern in text order;
`error_dist_counts` lists the bracketed counts found in the
`Error distribution:` section.  Any text determines exactly one such
capture record, so quantifying over `OhaCaptures` quantifies over all
input texts. -/
structure OhaCaptures where
  success_rate : Option ℚ
  avg : Option (ℚ × TimeUnit)
  slowest : Option (ℚ × TimeUnit)
  rps : Option ℚ
  p50 : Option (ℚ × TimeUnit)
  p90 : Option (ℚ × TimeUnit)
  p99 : Option (ℚ × TimeUnit)
  status_matches : List (Nat × Nat)
  error_dist_counts : List Nat
  transfer : Option String
deriving DecidableEq, Repr

/-- Error test on a status code (runner.rs line 293):
`!(200..400).contains(&status_code)`. -/
def isErrorCode (code : Nat) : Bool :=
  decide (¬ (200 ≤ code ∧ code < 400))

/-- Sum of the counts of a `(code, count)` list. -/
def sumCounts (l : List (Nat × Nat)) : Nat :=
  (l.map Prod.snd).sum

/-- Sum of a list of counts. -/
def sumList (l : List Nat) : Nat :=
  l.sum

/-- Optional latency capture to milliseconds, 0 when absent. -/
def latencyFrom (o : Option (ℚ × TimeUnit)) : ℚ :=
  match o with
  | some (v, u) => parse_time_to_ms v u
  | none => 0

/-- Total of the status-code response counts (runner.rs line 290). -/
def statusTotal (scan : OhaCaptures) : Nat :=
  sumCounts scan.status_matches

/-- The non-2xx/3xx status matches (runner.rs lines 293-296). -/
def errorMatches (scan : OhaCaptures) : List (Nat × Nat) :=
  scan.status_matches.filter (fun p => isErrorCode p.1)

/-- Count of error responses from the status-code section (runner.rs line 294). -/
def errorResponses (scan : OhaCaptures) : Nat :=
  sumCounts (errorMatches scan)

/-- Total of the error-distribution counts (runner.rs lines 305-313). -/
def distTotal (scan : OhaCaptures) : Nat :=
  sumList scan.error_dist_counts

/-- `total_requests` after both counting scans (runner.rs lines 287-313):
status-code counts plus error-distribution counts, a chain of `u64`
additions, hence reduced modulo `2^64`. -/
def rawTotal (scan : OhaCaptures) : Nat :=
  (statusTotal scan + distTotal scan) % u64Mod

/-- `result.errors` after both counting scans (runner.rs lines 308-316):
error-distribution counts plus non-2xx/3xx response counts, reduced
modulo `2^64`. -/
def rawErrors (scan : OhaCaptures) : Nat :=
  (distTotal scan + errorResponses scan) % u64Mod

/-- The provisional error rate from the `Success rate:` line
(runner.rs lines 241-245), 0 when the line is absent. -/
def provisionalErrorRate (scan : OhaCaptures) : ℚ :=
  match scan.success_rate with
  | some s => 100 - s
  | none => 0

/-- `actual_rate` from the `Requests/sec:` line (runner.rs lines 260-263). -/
def actualRate (scan : OhaCaptures) : ℚ :=
  match scan.rps with
  | some v => v
  | none => 0

/-- `parse_oha_output` (runner.rs lines 230-337) over the capture record.
Field by field this follows the source: provisional `error_rate` from
the success-rate line; latencies unit-normalised; counting of the
status-code and error-distribution sections; count-descending sort of
the error codes; recomputation of `error_rate` from exact counts when
`total_requests > 0 && errors > 0` (lines 320-323, evaluated before the
estimation step); passthrough transfer rate; and finally, when
`total_requests == 0 && actual_rate > 0`, the estimate
`(actual_rate * duration as f64) as u64` (lines 331-334), which
truncates toward zero and saturates at `u64::MAX`. -/
def parse_oha_output (scan : OhaCaptures) (target_rate duration_seconds : Nat) :
    BenchmarkResult :=
  { target_rate := target_rate
    actual_rate := actualRate scan
    avg_latency_ms := latencyFrom scan.avg
    p50_latency_ms := latencyFrom scan.p50
    p90_latency_ms := latencyFrom scan.p90
    p99_latency_ms := latencyFrom scan.p99
    max_latency_ms := latencyFrom scan.slowest
    total_requests :=
      if rawTotal scan = 0 ∧ 0 < actualRate scan then
        min (⌊actualRate scan * (duration_seconds : ℚ)⌋.toNat) (u64Mod - 1)
      else rawTotal scan
    errors := rawErrors scan
    error_rate :=
      if 0 < rawTotal scan ∧ 0 < rawErrors scan then
        (rawErrors scan : ℚ) / (rawTotal scan : ℚ) * 100
      else provisionalErrorRate scan
    transfer_rate :=
      match scan.transfer with
      | some t => t
      | none => ""
    error_status_codes := sortByCountDesc (errorMatches scan)
    hung := false }

/-- A generic healthy step result at a given rate, used to instantiate
the claim theorems at the concrete examples of the specification. -/
def sampleResult (rate : Nat) : BenchmarkResult :=
  { target_rate := rate
    actual_rate := rate
    avg_latency_ms := 10
    p50_latency_ms := 10
    p90_latency_ms := 12
    p99_latency_ms := 20
    max_latency_ms := 30
    total_requests := 1000
    errors := 0
    error_rate := 0
    transfer_rate := ""
    error_status_codes := []
    hung := false }

/-! ## Theorems -/

/-- C8: a result with `hung == true` is classified `Hung`/`BreakReason::Hung`
by `analyze_result`, whatever every other field and the thresholds are. -/
theorem C8_hung_always_hung (r : BenchmarkResult) (t : ThresholdConfig)
    (h : r.hung = true) :
    analyze_result r t = ⟨StepStatus.Hung, BreakReason.Hung⟩ := by
  simp [analyze_result, h]

/-- Witness for C8: a hung result whose error rate (100) also exceeds the
default threshold (5) is still classified `Hung`. -/
theorem C8_witness :
    analyze_result
      { sampleResult 100 with
        hung := true, error_rate := 100, error_status_codes := [(500, 60)] } ⟨5, 3000⟩ =
      ⟨StepStatus.Hung, BreakReason.Hung⟩ :=
  C8_hung_always_hung _ _ rfl

/-- C2: for a non-hung result that does not meet the `Gone` condition and
whose error rate exceeds the threshold, `analyze_result` is decided by
the dominant error code (the head of the count-descending
`error_status_codes`): 429 gives `RateLimited`, 403 gives `Blocked`, any
other code — or no recorded error code — gives `Break` with
`BreakReason::ErrorRate`. -/
theorem C2_dominant_code_decides (r : BenchmarkResult) (t : ThresholdConfig)
    (hhung : r.hung = false)
    (hgone : ¬(r.p99_latency_ms = 0 ∧ r.avg_latency_ms = 0 ∧ 0 < r.actual_rate))
    (herr : t.max_error_rate < r.error_rate) :
    (get_dominant_error_status r = some 429 →
      analyze_result r t = ⟨StepStatus.RateLimited, BreakReason.RateLimited r.error_rate⟩) ∧
    (get_dominant_error_status r = some 403 →
      analyze_result r t = ⟨StepStatus.Blocked, BreakReason.Blocked r.error_rate⟩) ∧
    (∀ code, get_dominant_error_status r = some code → code ≠ 429 → code ≠ 403 →
      analyze_result r t = ⟨StepStatus.Break, BreakReason.ErrorRate r.error_rate⟩) ∧
    (get_dominant_error_status r = none →
      analyze_result r t = ⟨StepStatus.Break, BreakReason.ErrorRate r.error_rate⟩) := by
  refine ⟨fun h429 => ?_, fun h403 => ?_, fun code hc h1 h2 => ?_, fun hnone => ?_⟩ <;>
    simp_all [analyze_result]

/-- Witness for C2: error codes `[(429, 50), (500, 10)]` with error rate 60
above threshold 5 classify as `RateLimited` (plurality, not unanimity). -/
theorem C2_witness :
    analyze_result
      { sampleResult 100 with
        error_rate := 60, error_status_codes := [(429, 50), (500, 10)] } ⟨5, 3000⟩ =
      ⟨StepStatus.RateLimited, BreakReason.RateLimited 60⟩ :=
  (C2_dominant_code_decides _ _ rfl (by decide) (by decide)).1 rfl

/-- C9: `analyze_result` returns `BreakReason::None` exactly on the `Ok`
and `Warning` statuses; every terminal status carries its matching
non-`None` reason (`Hung`, `NoResponses`, `RateLimited`, `Blocked`, and
for `Break` one of `ErrorRate`, `P99Latency`, `ThroughputDegradation`). -/
theorem C9_reason_iff_status (r : BenchmarkResult) (t : ThresholdConfig) :
    ((analyze_result r t).break_reason = BreakReason.None ↔
      (analyze_result r t).status = StepStatus.Ok ∨
        (analyze_result r t).status = StepStatus.Warning) ∧
    ((analyze_result r t).status = StepStatus.Hung →
      (analyze_result r t).break_reason = BreakReason.Hung) ∧
    ((analyze_result r t).status = StepStatus.Gone →
      (analyze_result r t).break_reason = BreakReason.NoResponses) ∧
    ((analyze_result r t).status = StepStatus.RateLimited →
      (analyze_result r t).break_reason = BreakReason.RateLimited r.error_rate) ∧
    ((analyze_result r t).status = StepStatus.Blocked →
      (analyze_result r t).break_reason = BreakReason.Blocked r.error_rate) ∧
    ((analyze_result r t).status = StepStatus.Break →
      (analyze_result r t).break_reason = BreakReason.ErrorRate r.error_rate ∨
      (analyze_result r t).break_reason = BreakReason.P99Latency r.p99_latency_ms ∨
      ∃ q, (analyze_result r t).break_reason = BreakReason.ThroughputDegradation q) := by
  unfold analyze_result
  split_ifs <;> simp

/-- Witness for C9 at a concrete warning-level result: reason `None` with
status `Warning`. -/
theorem C9_witness :
    ((analyze_result { sampleResult 100 with error_rate := 4 } ⟨5, 3000⟩).break_reason =
        BreakReason.None ↔
      (analyze_result { sampleResult 100 with error_rate := 4 } ⟨5, 3000⟩).status =
          StepStatus.Ok ∨
        (analyze_result { sampleResult 100 with error_rate := 4 } ⟨5, 3000⟩).status =
          StepStatus.Warning) ∧
    ((analyze_result { sampleResult 100 with error_rate := 4 } ⟨5, 3000⟩).status =
        StepStatus.Hung →
      (analyze_result { sampleResult 100 with error_rate := 4 } ⟨5, 3000⟩).break_reason =
        BreakReason.Hung) ∧
    ((analyze_result { sampleResult 100 with error_rate := 4 } ⟨5, 3000⟩).status =
        StepStatus.Gone →
      (analyze_result { sampleResult 100 with error_rate := 4 } ⟨5, 3000⟩).break_reason =
        BreakReason.NoResponses) ∧
    ((analyze_result { sampleResult 100 with error_rate := 4 } ⟨5, 3000⟩).status =
        StepStatus.RateLimited →
      (analyze_result { sampleResult 100 with error_rate := 4 } ⟨5, 3000⟩).break_reason =
        BreakReason.RateLimited 4) ∧
    ((analyze_result { sampleResult 100 with error_rate := 4 } ⟨5, 3000⟩).status =
        StepStatus.Blocked →
      (analyze_result { sampleResult 100 with error_rate := 4 } ⟨5, 3000⟩).break_reason =
        BreakReason.Blocked 4) ∧
    ((analyze_result { sampleResult 100 with error_rate := 4 } ⟨5, 3000⟩).status =
        StepStatus.Break →
      (analyze_result { sampleResult 100 with error_rate := 4 } ⟨5, 3000⟩).break_reason =
        BreakReason.ErrorRate 4 ∨
      (analyze_result { sampleResult 100 with error_rate := 4 } ⟨5, 3000⟩).break_reason =
        BreakReason.P99Latency 20 ∨
      ∃ q, (analyze_result { sampleResult 100 with error_rate := 4 } ⟨5, 3000⟩).break_reason =
        BreakReason.ThroughputDegradation q) :=
  C9_reason_iff_status { sampleResult 100 with error_rate := 4 } ⟨5, 3000⟩

/-- The summary scan on a list whose prefix holds no terminal
classification stops at the first terminal pair `(r, a)`: it reports that
step's target rate and break reason, and leaves `last_stable_rate` at
the immediately preceding step's target rate (the initial `prev`, or
failing that the incoming `lastOk`, when the prefix is empty). -/
theorem summaryLoop_first_terminal (r : BenchmarkResult) (a : AnalysisResult)
    (rest : List (BenchmarkResult × AnalysisResult)) (ha : isTerminal a.status = true)
    (ps : List (BenchmarkResult × AnalysisResult)) :
    ∀ prev lastOk : Option Nat, (∀ x ∈ ps, isTerminal x.2.status = false) →
      summaryLoop (ps ++ (r, a) :: rest) prev lastOk =
        ⟨some r.target_rate, a.break_reason,
          decide (a.status = StepStatus.RateLimited),
          decide (a.status = StepStatus.Blocked),
          match ps.getLast? with
          | some q => some q.1.target_rate
          | none =>
            match prev with
            | some p => some p
            | none => lastOk⟩ := by
  induction ps with
  | nil =>
    intro prev lastOk _
    simp [summaryLoop, ha]
  | cons q ps ih =>
    intro prev lastOk hpre
    obtain ⟨qr, qa⟩ := q
    have hq : isTerminal qa.status = false := hpre (qr, qa) (List.mem_cons_self _ _)
    have hrest : ∀ x ∈ ps, isTerminal x.2.status = false :=
      fun x hx => hpre x (List.mem_cons_of_mem _ hx)
    rw [List.cons_append]
    simp only [summaryLoop, hq, Bool.false_eq_true, if_false]
    by_cases hok : qa.status = StepStatus.Ok
    · rw [if_pos hok, ih _ _ hrest]
      cases ps with
      | nil => simp
      | cons p2 ps2 =>
        rw [List.getLast?_cons_cons]
        cases hy : (p2 :: ps2).getLast? with
        | none => exact absurd (List.getLast?_eq_none_iff.mp hy) (by simp)
        | some y => rfl
    · rw [if_neg hok, ih _ _ hrest]
      cases ps with
      | nil => simp
      | cons p2 ps2 =>
        rw [List.getLast?_cons_cons]
        cases hy : (p2 :: ps2).getLast? with
        | none => exact absurd (List.getLast?_eq_none_iff.mp hy) (by simp)
        | some y => rfl

/-- First components of the last element of a zip of equal-length lists. -/
theorem zip_getLast_fst {α β : Type} (l₁ : List α) :
    ∀ l₂ : List β, l₁.length = l₂.length →
      ((l₁.zip l₂).getLast?).map Prod.fst = l₁.getLast? := by
  induction l₁ with
  | nil => intro l₂ h; simp
  | cons a t ih =>
    intro l₂ h
    cases l₂ with
    | nil => simp at h
    | cons b u =>
      cases t with
      | nil =>
        have hu : u = [] := by
          cases u with
          | nil => rfl
          | cons x xs => simp at h
        subst hu
        simp
      | cons a2 t2 =>
        cases u with
        | nil => simp at h
        | cons b2 u2 =>
          rw [List.zip_cons_cons, List.zip_cons_cons, List.getLast?_cons_cons,
            List.getLast?_cons_cons, ← List.zip_cons_cons]
          exact ih (b2 :: u2) (by simpa using h)

/-- C1: for equal-length parallel result/classification sequences whose
first terminal classification is `a` at the step with result `r`,
`generate_summary` reports `breaking_point_rate = r.target_rate` and
`break_reason = a.break_reason`; when the terminal step is not the first
(`rpre.getLast? = some q`), `last_stable_rate` is the previous step's
target rate `q.target_rate` and `recommended_rate` is 80% of it
(truncated); when the terminal step is the first, both are `none`. -/
theorem C1_summary_first_terminal (rpre rpost : List BenchmarkResult)
    (pre post : List AnalysisResult) (r : BenchmarkResult) (a : AnalysisResult) (d : Nat)
    (hlen : rpre.length = pre.length) (hlen2 : rpost.length = post.length)
    (hpre : ∀ x ∈ pre, isTerminal x.status = false)
    (ha : isTerminal a.status = true) :
    (generate_summary (rpre ++ r :: rpost) (pre ++ a :: post) d).breaking_point_rate =
        some r.target_rate ∧
    (generate_summary (rpre ++ r :: rpost) (pre ++ a :: post) d).break_reason =
        a.break_reason ∧
    (∀ q, rpre.getLast? = some q →
      (generate_summary (rpre ++ r :: rpost) (pre ++ a :: post) d).last_stable_rate =
          some q.target_rate ∧
      (generate_summary (rpre ++ r :: rpost) (pre ++ a :: post) d).recommended_rate =
          some (⌊(q.target_rate : ℚ) * (8 / 10)⌋).toNat) ∧
    (rpre = [] →
      (generate_summary (rpre ++ r :: rpost) (pre ++ a :: post) d).last_stable_rate =
          none ∧
      (generate_summary (rpre ++ r :: rpost) (pre ++ a :: post) d).recommended_rate =
          none) := by
  have hzip : (rpre ++ r :: rpost).zip (pre ++ a :: post) =
      (rpre.zip pre) ++ (r, a) :: (rpost.zip post) := by
    rw [List.zip_append hlen, List.zip_cons_cons]
  have hps : ∀ x ∈ rpre.zip pre, isTerminal x.2.status = false :=
    fun x hx => hpre x.2 (List.of_mem_zip hx).2
  have hscan := summaryLoop_first_terminal r a (rpost.zip post) ha (rpre.zip pre)
    none none hps
  simp only [generate_summary, hzip, hscan]
  refine ⟨by simp, by simp, fun q hq => ?_, fun hnil => ?_⟩
  · have hmap := zip_getLast_fst rpre pre hlen
    rw [hq] at hmap
    obtain ⟨x, hx, hx1⟩ := Option.map_eq_some'.mp hmap
    constructor
    · simp [hx, hx1]
    · simp [hx, hx1]
  · subst hnil
    have hpnil : pre = [] := by
      cases pre with
      | nil => rfl
      | cons y ys => simp at hlen
    subst hpnil
    constructor <;> simp

/-- Witness for C1: steps at rates 50, 100, 150 classified Ok, Warning,
Break give breaking point 150, break reason preserved, last stable rate
100 and recommended rate 80. -/
theorem C1_witness :
    (generate_summary [sampleResult 50, sampleResult 100, sampleResult 150]
        [⟨StepStatus.Ok, BreakReason.None⟩, ⟨StepStatus.Warning, BreakReason.None⟩,
          ⟨StepStatus.Break, BreakReason.ErrorRate 12⟩] 30).breaking_point_rate =
      some 150 ∧
    (generate_summary [sampleResult 50, sampleResult 100, sampleResult 150]
        [⟨StepStatus.Ok, BreakReason.None⟩, ⟨StepStatus.Warning, BreakReason.None⟩,
          ⟨StepStatus.Break, BreakReason.ErrorRate 12⟩] 30).break_reason =
      BreakReason.ErrorRate 12 ∧
    (generate_summary [sampleResult 50, sampleResult 100, sampleResult 150]
        [⟨StepStatus.Ok, BreakReason.None⟩, ⟨StepStatus.Warning, BreakReason.None⟩,
          ⟨StepStatus.Break, BreakReason.ErrorRate 12⟩] 30).last_stable_rate =
      some 100 ∧
    (generate_summary [sampleResult 50, sampleResult 100, sampleResult 150]
        [⟨StepStatus.Ok, BreakReason.None⟩, ⟨StepStatus.Warning, BreakReason.None⟩,
          ⟨StepStatus.Break, BreakReason.ErrorRate 12⟩] 30).recommended_rate =
      some 80 := by
  have h := C1_summary_first_terminal [sampleResult 50, sampleResult 100] []
    [⟨StepStatus.Ok, BreakReason.None⟩, ⟨StepStatus.Warning, BreakReason.None⟩] []
    (sampleResult 150) ⟨StepStatus.Break, BreakReason.ErrorRate 12⟩ 30 rfl rfl
    (by decide) rfl
  obtain ⟨h1, h2, h3, _⟩ := h
  have h5 := h3 (sampleResult 100) rfl
  exact ⟨h1, h2, h5.1, h5.2.trans (by norm_num [sampleResult]; rfl)⟩

/-- Summing counts over a filtered list never exceeds the full sum. -/
theorem sumCounts_filter_le (p : Nat × Nat → Bool) (l : List (Nat × Nat)) :
    sumCounts (l.filter p) ≤ sumCounts l := by
  induction l with
  | nil => simp [sumCounts]
  | cons x t ih =>
    simp only [sumCounts, List.filter_cons] at ih ⊢
    split
    · simp only [List.map_cons, List.sum_cons]
      omega
    · simp only [List.map_cons, List.sum_cons]
      omega

/-- Without u64 overflow, the parsed error count never exceeds the parsed
request total, and both are the plain sums. -/
theorem rawCounts_of_no_overflow (scan : OhaCaptures)
    (hover : statusTotal scan + distTotal scan < u64Mod) :
    rawErrors scan ≤ rawTotal scan ∧
    rawTotal scan = statusTotal scan + distTotal scan ∧
    rawErrors scan = distTotal scan + errorResponses scan := by
  have h1 : errorResponses scan ≤ statusTotal scan := sumCounts_filter_le _ _
  have h2 : distTotal scan + errorResponses scan < u64Mod := by omega
  unfold rawErrors rawTotal
  rw [Nat.mod_eq_of_lt h2, Nat.mod_eq_of_lt hover]
  omega

/-- When the counting scans recovered a positive total, the final
`total_requests` is that total (the estimation branch is skipped). -/
theorem parse_total_of_ne_zero (scan : OhaCaptures) (tr d : Nat)
    (h0 : rawTotal scan ≠ 0) :
    (parse_oha_output scan tr d).total_requests = rawTotal scan := by
  simp [parse_oha_output, h0]

/-- When both the total and the error count are positive, the final
`error_rate` is recomputed from the exact counts. -/
theorem parse_error_rate_recomputed (scan : OhaCaptures) (tr d : Nat)
    (h1 : 0 < rawTotal scan) (h2 : 0 < rawErrors scan) :
    (parse_oha_output scan tr d).error_rate =
      (rawErrors scan : ℚ) / (rawTotal scan : ℚ) * 100 := by
  simp [parse_oha_output, h1, h2]

/-- C10 (amended): provided the parsed counts do not overflow `u64`, the
result of `parse_oha_output` satisfies `errors ≤ total_requests` for
every capture record and duration, and whenever `errors > 0` the final
`error_rate` is the recomputed `errors / total_requests * 100`, which
never exceeds 100. -/
theorem C10_errors_le_total (scan : OhaCaptures) (tr d : Nat)
    (hover : statusTotal scan + distTotal scan < u64Mod) :
    (parse_oha_output scan tr d).errors ≤ (parse_oha_output scan tr d).total_requests ∧
    (0 < (parse_oha_output scan tr d).errors →
      (parse_oha_output scan tr d).error_rate =
        ((parse_oha_output scan tr d).errors : ℚ) /
          ((parse_oha_output scan tr d).total_requests : ℚ) * 100 ∧
      (parse_oha_output scan tr d).error_rate ≤ 100) := by
  obtain ⟨hle, htot, herr⟩ := rawCounts_of_no_overflow scan hover
  have herrs : (parse_oha_output scan tr d).errors = rawErrors scan := rfl
  by_cases h0 : rawTotal scan = 0
  · have he0 : rawErrors scan = 0 := by omega
    refine ⟨?_, fun hpos => ?_⟩
    · rw [herrs, he0]; exact Nat.zero_le _
    · rw [herrs, he0] at hpos; exact absurd hpos (lt_irrefl 0)
  · have htr := parse_total_of_ne_zero scan tr d h0
    refine ⟨by rw [herrs, htr]; exact hle, fun hpos => ?_⟩
    rw [herrs] at hpos
    have hrate := parse_error_rate_recomputed scan tr d (Nat.pos_of_ne_zero h0) hpos
    refine ⟨by rw [hrate, herrs, htr], ?_⟩
    rw [hrate]
    have hq : (rawErrors scan : ℚ) / (rawTotal scan : ℚ) ≤ 1 := by
      rw [div_le_one (by exact_mod_cast Nat.pos_of_ne_zero h0)]
      exact_mod_cast hle
    calc (rawErrors scan : ℚ) / (rawTotal scan : ℚ) * 100 ≤ 1 * 100 :=
        mul_le_mul_of_nonneg_right hq (by norm_num)
    _ = 100 := by norm_num

/-- The capture record of a text whose status-code section holds two
`u64`-maximal-scale counts: `[200] 2^63 responses` and
`[500] 2^63 responses`.  Their sum wraps to 0 in the `u64` running
total. -/
def overflowCaptures : OhaCaptures :=
  ⟨none, none, none, none, none, none, none,
    [(200, 9223372036854775808), (500, 9223372036854775808)], [], none⟩

/-- Counterexample to C10 as stated: on a text with status counts
`[(200, 2^63), (500, 2^63)]` the `u64` request total wraps to 0 while
the error count is `2^63`, so `errors ≤ total_requests` fails. -/
theorem C10_counterexample :
    (parse_oha_output overflowCaptures 10 30).errors = 9223372036854775808 ∧
    (parse_oha_output overflowCaptures 10 30).total_requests = 0 ∧
    ¬ (9223372036854775808 : Nat) ≤ 0 := by
  refine ⟨by decide, by decide, by omega⟩

/-- Witness for C10: a text with `[(200, 90), (500, 10)]` and no
error-distribution section gives 10 errors out of 100 requests and a
recomputed error rate of exactly 10 ≤ 100. -/
theorem C10_witness :
    (parse_oha_output ⟨some (185 / 2), none, none, none, none, none, none,
        [(200, 90), (500, 10)], [], none⟩ 100 30).errors ≤
      (parse_oha_output ⟨some (185 / 2), none, none, none, none, none, none,
        [(200, 90), (500, 10)], [], none⟩ 100 30).total_requests ∧
    (0 < (parse_oha_output ⟨some (185 / 2), none, none, none, none, none, none,
        [(200, 90), (500, 10)], [], none⟩ 100 30).errors →
      (parse_oha_output ⟨some (185 / 2), none, none, none, none, none, none,
          [(200, 90), (500, 10)], [], none⟩ 100 30).error_rate =
        ((parse_oha_output ⟨some (185 / 2), none, none, none, none, none, none,
            [(200, 90), (500, 10)], [], none⟩ 100 30).errors : ℚ) /
          ((parse_oha_output ⟨some (185 / 2), none, none, none, none, none, none,
              [(200, 90), (500, 10)], [], none⟩ 100 30).total_requests : ℚ) * 100 ∧
      (parse_oha_output ⟨some (185 / 2), none, none, none, none, none, none,
          [(200, 90), (500, 10)], [], none⟩ 100 30).error_rate ≤ 100) :=
  C10_errors_le_total _ 100 30 (by decide)

/-- The capture record of a text with `Success rate: 99.50%` and a
status-code section `[200] 100 responses`: counts are fully recovered
and the error count is 0. -/
def zeroErrorCaptures : OhaCaptures :=
  ⟨some (199 / 2), none, none, none, none, none, none, [(200, 100)], [], none⟩

/-- Counterexample to C5 as stated: with both counts recovered from the
text (`total_requests = 100`, `errors = 0`) the final `error_rate` is
the provisional `100 - 99.5 = 0.5` from the success-rate line, not the
exact-count value `0/100*100 = 0`; the recomputation needs `errors > 0`,
not merely known counts. -/
theorem C5_counterexample :
    (parse_oha_output zeroErrorCaptures 10 30).total_requests = 100 ∧
    (parse_oha_output zeroErrorCaptures 10 30).errors = 0 ∧
    (parse_oha_output zeroErrorCaptures 10 30).error_rate = 1 / 2 ∧
    ((0 : ℚ) / 100 * 100 = 0) ∧ ((1 : ℚ) / 2 ≠ 0) := by
  refine ⟨by decide, by decide, ?_, by norm_num, by norm_num⟩
  show provisionalErrorRate zeroErrorCaptures = 1 / 2
  norm_num [provisionalErrorRate, zeroErrorCaptures]

/-- C5 (amended): provided the parsed counts do not overflow `u64`,
whenever the parsed result has `total_requests > 0` and `errors > 0` its
final `error_rate` equals `errors / total_requests * 100`, overriding
the provisional success-rate figure. -/
theorem C5_recompute_overrides (scan : OhaCaptures) (tr d : Nat)
    (hover : statusTotal scan + distTotal scan < u64Mod)
    (ht : 0 < (parse_oha_output scan tr d).total_requests)
    (he : 0 < (parse_oha_output scan tr d).errors) :
    (parse_oha_output scan tr d).error_rate =
      ((parse_oha_output scan tr d).errors : ℚ) /
        ((parse_oha_output scan tr d).total_requests : ℚ) * 100 := by
  obtain ⟨hle, htot, herr⟩ := rawCounts_of_no_overflow scan hover
  have herrs : (parse_oha_output scan tr d).errors = rawErrors scan := rfl
  rw [herrs] at he ⊢
  have h0 : 0 < rawTotal scan := lt_of_lt_of_le he hle
  rw [parse_total_of_ne_zero scan tr d (Nat.pos_iff_ne_zero.mp h0),
    parse_error_rate_recomputed scan tr d h0 he]

/-- Witness for C5: the specification round-trip example — success rate
92.50% with statuses `[(200, 90), (500, 10)]` — ends with
`error_rate = 10/100*100`, overriding the provisional 7.5. -/
theorem C5_witness :
    (parse_oha_output ⟨some (185 / 2), some (241 / 2, TimeUnit.ms), none, none,
        some (80, TimeUnit.ms), some (150, TimeUnit.ms), some (300, TimeUnit.ms),
        [(200, 90), (500, 10)], [], none⟩ 100 30).error_rate =
      ((parse_oha_output ⟨some (185 / 2), some (241 / 2, TimeUnit.ms), none, none,
          some (80, TimeUnit.ms), some (150, TimeUnit.ms), some (300, TimeUnit.ms),
          [(200, 90), (500, 10)], [], none⟩ 100 30).errors : ℚ) /
        ((parse_oha_output ⟨some (185 / 2), some (241 / 2, TimeUnit.ms), none, none,
            some (80, TimeUnit.ms), some (150, TimeUnit.ms), some (300, TimeUnit.ms),
            [(200, 90), (500, 10)], [], none⟩ 100 30).total_requests : ℚ) * 100 :=
  C5_recompute_overrides _ 100 30 (by decide) (by decide) (by decide)

/-- The capture record of a text holding only `Requests/sec: 1.5`
(no counts anywhere). -/
def estimateCaptures : OhaCaptures :=
  ⟨none, none, none, some (3 / 2), none, none, none, [], [], none⟩

/-- Counterexample to C4 as stated: with `actual_rate = 1.5` and duration
1s, the code stores `(1.5 * 1) as u64 = 1` (truncation toward zero),
while rounding to the nearest integer would give 2. -/
theorem C4_counterexample :
    (parse_oha_output estimateCaptures 10 1).total_requests = 1 ∧
    round ((3 / 2 : ℚ) * 1) = 2 ∧ (1 : Nat) ≠ 2 := by
  refine ⟨?_, ?_, by omega⟩
  · show (if rawTotal estimateCaptures = 0 ∧ 0 < actualRate estimateCaptures then
        min (⌊actualRate estimateCaptures * ((1 : Nat) : ℚ)⌋.toNat) (u64Mod - 1)
      else rawTotal estimateCaptures) = 1
    norm_num [rawTotal, actualRate, estimateCaptures, statusTotal, distTotal,
      sumCounts, sumList, u64Mod]
  · rw [round_eq]
    norm_num

/-- C4 (amended): when the counting scans recover no requests and the
`Requests/sec` line gives a positive rate, the final `total_requests` is
the truncation toward zero of `actual_rate * duration_seconds`
(saturated at the largest `u64`), not the nearest-integer rounding. -/
theorem C4_estimate_truncates (scan : OhaCaptures) (tr d : Nat) (rate : ℚ)
    (h0 : rawTotal scan = 0) (hr : scan.rps = some rate) (hpos : 0 < rate) :
    (parse_oha_output scan tr d).total_requests =
      min (⌊rate * (d : ℚ)⌋.toNat) (u64Mod - 1) := by
  have ha : actualRate scan = rate := by simp [actualRate, hr]
  simp [parse_oha_output, h0, ha, hpos]

/-- Witness for C4: the counterexample text at duration 1 second has its
request total estimated as `min ⌊1.5 * 1⌋ (2^64 - 1)`. -/
theorem C4_witness :
    (parse_oha_output estimateCaptures 10 1).total_requests =
      min (⌊(3 / 2 : ℚ) * ((1 : Nat) : ℚ)⌋.toNat) (u64Mod - 1) :=
  C4_estimate_truncates estimateCaptures 10 1 (3 / 2) (by decide) rfl (by norm_num)

/-- An additive configuration with step 0 inside the rate range. -/
def zeroStepConfig : RampingConfig :=
  ⟨RampingMode.Linear, 50, 100, 0, 30, 4, 100⟩

/-- In linear mode with step 0 and `current ≤ max_rate` the loop makes no
progress: no amount of fuel reaches an exit. -/
theorem zeroStep_aux_none (fuel : Nat) :
    ∀ acc : List Nat, generateRatesAux RampingMode.Linear 100 0 fuel 50 acc = none := by
  induction fuel with
  | zero => intro acc; rfl
  | succ n ih =>
    intro acc
    have h : (50 + 0) % u32Mod = 50 := by decide
    simp only [generateRatesAux, h]
    rw [if_pos (by omega)]
    exact ih (acc ++ [50])

/-- C3: in additive (linear) mode with step 0 the `generate_rates` loop
never terminates when `start_rate ≤ max_rate` — the stall guard exists
only in the exponential branch — while `start_rate > max_rate` yields
the empty sequence.  This contradicts the specified single-element
result `[start_rate]`. -/
theorem C3_zero_step_linear_diverges :
    (∀ fuel, zeroStepConfig.generate_rates fuel = none) ∧
    (RampingConfig.mk RampingMode.Linear 150 100 0 30 4 100).generate_rates 1 = some [] := by
  exact ⟨fun fuel => zeroStep_aux_none fuel [], rfl⟩

/-- An additive configuration whose `max_rate` is the largest `u32`; the
loop guard `current ≤ max_rate` then holds for every `u32` value. -/
def overflowLinearConfig : RampingConfig :=
  ⟨RampingMode.Linear, 1, 4294967295, 4294967295, 30, 4, 100⟩

/-- With `max_rate = 2^32 - 1` every wrapped `u32` value satisfies the
loop guard, so the linear loop never exits. -/
theorem maxed_linear_aux_none (fuel : Nat) :
    ∀ current acc, current < u32Mod →
      generateRatesAux RampingMode.Linear 4294967295 4294967295 fuel current acc = none := by
  induction fuel with
  | zero => intro current acc _; rfl
  | succ n ih =>
    intro current acc hc
    have hle : current ≤ 4294967295 := by
      have : u32Mod = 4294967296 := rfl
      omega
    simp only [generateRatesAux]
    rw [if_pos hle]
    exact ih _ _ (Nat.mod_lt _ (by decide))

/-- Counterexample to C6 as stated: the additive configuration
`(start, max, step) = (1, 2^32 - 1, 2^32 - 1)` has `step > 0` and
`start ≤ max`, yet `generate_rates` returns nothing at all — `u32`
wrapping keeps every value inside the loop guard — instead of the
claimed strictly increasing sequence of length
`⌊(max - start) / step⌋ + 1 = 1`. -/
theorem C6_counterexample :
    0 < overflowLinearConfig.step ∧
    overflowLinearConfig.start_rate ≤ overflowLinearConfig.max_rate ∧
    ¬ ∃ fuel l, overflowLinearConfig.generate_rates fuel = some l := by
  refine ⟨by decide, by decide, ?_⟩
  rintro ⟨fuel, l, h⟩
  rw [show overflowLinearConfig.generate_rates fuel =
      generateRatesAux RampingMode.Linear 4294967295 4294967295 fuel 1 [] from rfl,
    maxed_linear_aux_none fuel 1 [] (by decide)] at h
  exact Option.noConfusion h

/-- Prepending the base point to a shifted arithmetic progression gives
the unshifted progression, one element longer. -/
theorem range_map_shift (current step k : Nat) :
    current :: (List.range k).map (fun i => current + step + i * step) =
      (List.range (k + 1)).map (fun i => current + i * step) := by
  rw [List.range_succ_eq_map, List.map_cons, List.map_map]
  congr 1
  · simp
  · refine List.map_congr_left fun i _ => ?_
    simp only [Function.comp_apply, Nat.succ_eq_add_one]
    ring

/-- Closed form of the additive loop when the step is positive and
`max_rate + step` stays below `2^32` (no `u32` wrap): from any
`current ≤ max_rate` it terminates on the arithmetic progression
`current, current + step, ...` of length `(max_rate - current)/step + 1`. -/
theorem linear_aux_closed_form (max_rate step : Nat) (hstep : 0 < step)
    (hover : max_rate + step < u32Mod) (fuel : Nat) :
    ∀ current acc, current ≤ max_rate → (max_rate - current) / step + 2 ≤ fuel →
      generateRatesAux RampingMode.Linear max_rate step fuel current acc =
        some (acc ++ (List.range ((max_rate - current) / step + 1)).map
          (fun i => current + i * step)) := by
  induction fuel with
  | zero => intro current acc h1 h2; exact absurd h2 (Nat.not_succ_le_zero _)
  | succ n ih =>
    intro current acc hcur hfuel
    have hmod : (current + step) % u32Mod = current + step :=
      Nat.mod_eq_of_lt (by omega)
    simp only [generateRatesAux, hmod]
    rw [if_pos hcur]
    by_cases hnext : current + step ≤ max_rate
    · have hs : step ≤ max_rate - current := by omega
      have hdiv : (max_rate - current) / step = (max_rate - (current + step)) / step + 1 := by
        rw [Nat.div_eq_sub_div hstep hs, Nat.sub_sub]
      rw [ih (current + step) (acc ++ [current]) hnext (by omega)]
      congr 1
      rw [List.append_assoc]
      congr 1
      rw [hdiv]
      exact range_map_shift current step _
    · have hdz : (max_rate - current) / step = 0 := Nat.div_eq_of_lt (by omega)
      obtain ⟨m, rfl⟩ : ∃ m, n = m + 1 := ⟨n - 1, by omega⟩
      simp only [generateRatesAux]
      rw [if_neg hnext, hdz]
      simp [List.range_succ]

/-- C6 (amended): for every additive configuration with `step > 0`,
`start_rate ≤ max_rate` and additionally `max_rate + step < 2^32` (so
the `u32` addition never wraps), `generate_rates` with sufficient fuel
returns a strictly increasing sequence of length
`(max_rate - start_rate)/step + 1` whose first element is `start_rate`
and in which no element exceeds `max_rate`. -/
theorem C6_linear_sequence (c : RampingConfig) (fuel : Nat)
    (hmode : c.mode = RampingMode.Linear) (hstep : 0 < c.step)
    (hstart : c.start_rate ≤ c.max_rate) (hover : c.max_rate + c.step < u32Mod)
    (hfuel : (c.max_rate - c.start_rate) / c.step + 2 ≤ fuel) :
    ∃ l, c.generate_rates fuel = some l ∧
      l.length = (c.max_rate - c.start_rate) / c.step + 1 ∧
      l.head? = some c.start_rate ∧
      List.Pairwise (· < ·) l ∧
      ∀ x ∈ l, x ≤ c.max_rate := by
  refine ⟨(List.range ((c.max_rate - c.start_rate) / c.step + 1)).map
      (fun i => c.start_rate + i * c.step), ?_, ?_, ?_, ?_, ?_⟩
  · unfold RampingConfig.generate_rates
    rw [hmode]
    simpa using
      linear_aux_closed_form c.max_rate c.step hstep hover fuel c.start_rate [] hstart hfuel
  · simp
  · rw [List.range_succ_eq_map, List.map_cons]
    simp
  · refine (List.pairwise_lt_range _).map _ fun i j hij => ?_
    exact Nat.add_lt_add_left (Nat.mul_lt_mul_of_lt_of_le hij (le_refl c.step) hstep) _
  · intro x hx
    simp only [List.mem_map, List.mem_range] at hx
    obtain ⟨i, hi, rfl⟩ := hx
    have h1 : i ≤ (c.max_rate - c.start_rate) / c.step := by omega
    have h2 : i * c.step ≤ ((c.max_rate - c.start_rate) / c.step) * c.step :=
      Nat.mul_le_mul_right _ h1
    have h3 : ((c.max_rate - c.start_rate) / c.step) * c.step ≤ c.max_rate - c.start_rate :=
      Nat.div_mul_le_self _ _
    omega

/-- Witness for C6 (amended) at `(start, max, step) = (50, 200, 50)` with
fuel 10. -/
theorem C6_witness :
    ∃ l, (RampingConfig.mk RampingMode.Linear 50 200 50 30 4 100).generate_rates 10 =
        some l ∧
      l.length = ((200 : Nat) - 50) / 50 + 1 ∧
      l.head? = some 50 ∧
      List.Pairwise (· < ·) l ∧
      ∀ x ∈ l, x ≤ 200 :=
  C6_linear_sequence _ 10 rfl (by decide) (by decide) (by decide) (by decide)

/-- An exponential configuration whose doubling overflows `u32`:
`start_rate = 2^31` with `max_rate = 2^32 - 1`. -/
def overflowExpConfig : RampingConfig :=
  ⟨RampingMode.Exponential, 2147483648, 4294967295, 50, 30, 4, 100⟩

/-- Counterexample to C7 as stated: starting the exponential ramp at
`2^31` (with `max_rate = 2^32 - 1`), the produced sequence is
`[2^31, 0]` — the wrapped `u32` product — whose second element is not
double its predecessor. -/
theorem C7_counterexample :
    overflowExpConfig.generate_rates 3 = some [2147483648, 0] ∧
    (0 : Nat) ≠ 2147483648 * 2 := by
  exact ⟨by decide, by decide⟩

/-- Every terminating run of the exponential loop produces a chain in
which each element is the wrapped `u32` double of its predecessor. -/
theorem exp_aux_chain (max_rate step : Nat) (fuel : Nat) :
    ∀ current acc l,
      generateRatesAux RampingMode.Exponential max_rate step fuel current acc = some l →
      List.Chain' (fun a b => b = a * 2 % u32Mod) (acc ++ [current]) →
      List.Chain' (fun a b => b = a * 2 % u32Mod) l := by
  induction fuel with
  | zero => intro current acc l h _; exact absurd h (by simp [generateRatesAux])
  | succ n ih =>
    intro current acc l h hchain
    by_cases hcur : current ≤ max_rate
    · simp only [generateRatesAux] at h
      rw [if_pos hcur] at h
      by_cases hstall : current * 2 % u32Mod = current
      · rw [if_pos hstall] at h
        cases h
        exact hchain
      · rw [if_neg hstall] at h
        refine ih _ _ _ h ?_
        rw [List.chain'_append]
        refine ⟨hchain, List.chain'_singleton _, fun x hx y hy => ?_⟩
        rw [List.getLast?_concat] at hx
        simp only [Option.mem_def, Option.some.injEq] at hx
        simp only [List.head?_cons, Option.mem_def, Option.some.injEq] at hy
        subst hx
        subst hy
        rfl
    · simp only [generateRatesAux] at h
      rw [if_neg hcur] at h
      cases h
      exact (List.chain'_append.mp hchain).1

/-- The exponential loop terminates from any `u32` start: after at most
32 doublings the wrapped value is 0, where the stall guard fires. -/
theorem exp_aux_terminates (max_rate step : Nat) (n : Nat) :
    ∀ fuel current acc, current < u32Mod → 2 ^ n * current % u32Mod = 0 →
      n + 2 ≤ fuel →
      (generateRatesAux RampingMode.Exponential max_rate step fuel current acc).isSome =
        true := by
  induction n with
  | zero =>
    intro fuel current acc hlt h0 hfuel
    have hc : current = 0 := by
      rw [pow_zero, one_mul, Nat.mod_eq_of_lt hlt] at h0
      exact h0
    subst hc
    obtain ⟨f, rfl⟩ : ∃ f, fuel = f + 1 := ⟨fuel - 1, by omega⟩
    simp [generateRatesAux]
  | succ n ih =>
    intro fuel current acc hlt h0 hfuel
    obtain ⟨f, rfl⟩ : ∃ f, fuel = f + 1 := ⟨fuel - 1, by omega⟩
    by_cases hcur : current ≤ max_rate
    · by_cases hstall : current * 2 % u32Mod = current
      · simp [generateRatesAux, hcur, hstall]
      · simp only [generateRatesAux]
        rw [if_pos hcur, if_neg hstall]
        refine ih f _ _ (Nat.mod_lt _ (by decide)) ?_ (by omega)
        have hm : 2 ^ n * (current * 2 % u32Mod) % u32Mod =
            2 ^ n * (current * 2) % u32Mod :=
          Nat.ModEq.mul_left (2 ^ n) (Nat.mod_modEq (current * 2) u32Mod)
        rw [hm, show 2 ^ n * (current * 2) = 2 ^ (n + 1) * current by ring, h0]
    · simp only [generateRatesAux]
      rw [if_neg hcur]
      rfl

/-- C7 (amended): for every exponential configuration with a valid `u32`
start rate, each element of any produced sequence after the first equals
double the previous element reduced modulo `2^32` (exact doubling
whenever the product does not overflow), and generation terminates —
fuel 34 always suffices, including for `start_rate = 0`, where the
stall guard `next == current` stops the loop. -/
theorem C7_exponential_doubles_and_terminates (c : RampingConfig) (fuel : Nat)
    (l : List Nat) (hmode : c.mode = RampingMode.Exponential)
    (hstart : c.start_rate < u32Mod)
    (hout : c.generate_rates fuel = some l) :
    List.Chain' (fun a b => b = a * 2 % u32Mod) l ∧
    (c.generate_rates 34).isSome = true := by
  constructor
  · unfold RampingConfig.generate_rates at hout
    rw [hmode] at hout
    exact exp_aux_chain c.max_rate c.step fuel c.start_rate [] l hout (by simp)
  · unfold RampingConfig.generate_rates
    rw [hmode]
    refine exp_aux_terminates c.max_rate c.step 32 34 c.start_rate [] hstart ?_ (by omega)
    have h32 : (2 : Nat) ^ 32 = u32Mod := by decide
    rw [h32]
    exact Nat.mul_mod_right _ _

/-- A small exponential configuration: start 3, max 100. -/
def smallExpConfig : RampingConfig :=
  ⟨RampingMode.Exponential, 3, 100, 50, 30, 4, 100⟩

/-- Witness for C7 (amended): the exponential ramp from 3 to 100
produces `[3, 6, 12, 24, 48, 96]`, a wrapped-doubling chain, and
terminates within fuel 34. -/
theorem C7_witness :
    List.Chain' (fun a b => b = a * 2 % u32Mod) [3, 6, 12, 24, 48, 96] ∧
    (smallExpConfig.generate_rates 34).isSome = true :=
  C7_exponential_doubles_and_terminates smallExpConfig 34 [3, 6, 12, 24, 48, 96]
    rfl (by decide) (by decide)

end OhaBench
